import Mathlib

/-!
Shallow embedding of the performance layer of the uship_be repository:
the query complexity analyzer, the response TTL cache and the batched
employee loader from src/src/performance/graphqlOptimizer.ts, and the
optimized query facade from src/src/performance/databaseOptimizer.ts.
JavaScript Map objects are modelled as insertion-ordered association
lists with unique keys; Date.now timestamps are explicit Nat arguments.
-/

namespace Uship

/-! JS Map helpers.  A Map keeps insertion order; set replaces the value
of an existing key in place, get returns the first (only) binding,
delete removes the binding for a key. -/

def mapSet {κ α : Type} [DecidableEq κ] : List (κ × α) → κ → α → List (κ × α)
  | [], k, v => [(k, v)]
  | (k0, v0) :: rest, k, v =>
      if k0 = k then (k, v) :: rest else (k0, v0) :: mapSet rest k v

def mapGet {κ α : Type} [DecidableEq κ] : List (κ × α) → κ → Option α
  | [], _ => none
  | (k0, v0) :: rest, k => if k0 = k then some v0 else mapGet rest k

def mapDelete {κ α : Type} [DecidableEq κ] : List (κ × α) → κ → List (κ × α)
  | [], _ => []
  | (k0, v0) :: rest, k =>
      if k0 = k then rest else (k0, v0) :: mapDelete rest k

/-! ## QueryComplexityAnalyzer (graphqlOptimizer.ts, lines 92-163)

A GraphQL selection node is either a Field (with a name and an optional
child selection set, encoded here as a possibly empty list) or an
InlineFragment wrapping a selection set.  FragmentSpread does not occur
in the traversal of the source and is omitted. -/

inductive Selection : Type where
  | fld (name : String) (children : List Selection)
  | frag (children : List Selection)

/-- The static complexityRules table of the source: parent type name to
field name to weight. -/
def complexityRules : List (String × List (String × Nat)) :=
  [ ("Query", [("employees", 1), ("employee", 1)]),
    ("Mutation",
      [("addEmployee", 10), ("updateEmployee", 5), ("deleteEmployee", 5),
       ("login", 1), ("register", 10), ("resendPasswordEmail", 5)]),
    ("Employee",
      [("id", 0), ("name", 0), ("email", 0), ("age", 0),
       ("department", 0), ("position", 0), ("salary", 0), ("class", 0),
       ("subjects", 0), ("attendance", 0), ("avatar", 0), ("phone", 0),
       ("address", 0), ("startDate", 0), ("status", 0), ("role", 0)]) ]

/-- calculateFieldComplexity: the source evaluates
rules?.[fieldName] || 1, so both a missing parent type, a missing field
entry and a configured weight of 0 (falsy in JS) all yield 1. -/
def fieldWeight (rules : List (String × List (String × Nat)))
    (parentType fieldName : String) : Nat :=
  match mapGet rules parentType with
  | none => 1
  | some tbl =>
    match mapGet tbl fieldName with
    | none => 1
    | some w => if w = 0 then 1 else w

/-- The traverse closure of calculateComplexity: sums, over the
selections, the field weight plus the recursive cost of the child
selection set (traversed with the field NAME as the new parent type),
while an inline fragment contributes its inner cost under the same
parent type. -/
def traverse (rules : List (String × List (String × Nat))) :
    List Selection → String → Nat
  | [], _ => 0
  | Selection.fld n children :: rest, pt =>
      fieldWeight rules pt n + traverse rules children n + traverse rules rest pt
  | Selection.frag children :: rest, pt =>
      traverse rules children pt + traverse rules rest pt

/-- The hard-coded ceiling maxComplexity = 1000 of the source. -/
def maxComplexity : Nat := 1000

/-- calculateComplexity: computes the traversal cost of the top-level
selection set under the parent type name, throws (here: Except.error
carrying the pair of computed cost and ceiling) when the cost strictly
exceeds maxComplexity, and otherwise returns the cost. -/
def calculateComplexity (rules : List (String × List (String × Nat)))
    (sels : List Selection) (parentTypeName : String) : Except (Nat × Nat) Nat :=
  let complexity := traverse rules sels parentTypeName
  if complexity > maxComplexity then Except.error (complexity, maxComplexity)
  else Except.ok complexity

/-- Number of Field nodes in a selection tree (fields inside inline
fragments included). -/
def countFields : List Selection → Nat
  | [] => 0
  | Selection.fld _ children :: rest => 1 + countFields children + countFields rest
  | Selection.frag children :: rest => countFields children + countFields rest

/-! ## GraphQLCache (graphqlOptimizer.ts, lines 210-260)

A static Map from string keys to entries holding the data, the
Date.now() timestamp at which set was called, and the ttl in
milliseconds.  The current time is passed explicitly. -/

structure CacheEntry (α : Type) where
  data : α
  timestamp : Nat
  ttl : Nat
deriving DecidableEq

/-- The default ttl argument of GraphQLCache.set (5 minutes in ms). -/
def defaultCacheTTL : Nat := 300000

/-- GraphQLCache.set: stores the data under the key together with the
current timestamp and the ttl, overwriting any existing entry. -/
def cacheSet {α : Type} (c : List (String × CacheEntry α)) (key : String)
    (dat : α) (ttl now : Nat) : List (String × CacheEntry α) :=
  mapSet c key { data := dat, timestamp := now, ttl := ttl }

/-- GraphQLCache.get: returns null on a missing key; on a present entry,
if now - timestamp > ttl the entry is deleted (lazy eviction) and null
is returned, otherwise the stored data is returned.  The result pairs
the returned value with the cache state after the call. -/
def cacheGet {α : Type} (c : List (String × CacheEntry α)) (key : String)
    (now : Nat) : Option α × List (String × CacheEntry α) :=
  match mapGet c key with
  | none => (none, c)
  | some cached =>
      if now - cached.timestamp > cached.ttl then (none, mapDelete c key)
      else (some cached.data, c)

/-- Substring test used to model JavaScript String.prototype.includes:
does the pattern occur as a leading block of the text. -/
def leadMatch : List Char → List Char → Bool
  | [], _ => true
  | _ :: _, [] => false
  | a :: as, b :: bs => a = b && leadMatch as bs

/-- Does the pattern occur contiguously anywhere in the text (the
semantics of key.includes(pattern) in the source). -/
def subMatch (pat : List Char) : List Char → Bool
  | [] => leadMatch pat []
  | b :: bs => leadMatch pat (b :: bs) || subMatch pat bs

/-- key.includes(pattern): does the pattern occur as a contiguous
substring of the key. -/
def strIncludes (key pat : String) : Bool :=
  subMatch pat.toList key.toList

/-- GraphQLCache.clear: with a pattern, deletes every entry whose key
contains the pattern as a substring; with no pattern, clears the map. -/
def cacheClear {α : Type} (c : List (String × CacheEntry α)) :
    Option String → List (String × CacheEntry α)
  | some pat => c.filter (fun kv => !(strIncludes kv.1 pat))
  | none => []

structure CacheStats where
  size : Nat
  hitRate : Nat
deriving DecidableEq

/-- GraphQLCache.getStats: the size of the underlying map and a
hit rate that the source hard-codes to 0. -/
def getStats {α : Type} (c : List (String × CacheEntry α)) : CacheStats :=
  { size := c.length, hitRate := 0 }

/-- One public mutating call on GraphQLCache, with its Date.now value
where the source reads the clock. -/
inductive CacheOp (α : Type) where
  | setOp (key : String) (dat : α) (ttl : Nat) (now : Nat)
  | getOp (key : String) (now : Nat)
  | clearOp (pat : Option String)

/-- State reached after one GraphQLCache call. -/
def applyOp {α : Type} (c : List (String × CacheEntry α)) :
    CacheOp α → List (String × CacheEntry α)
  | CacheOp.setOp k d ttl now => cacheSet c k d ttl now
  | CacheOp.getOp k now => (cacheGet c k now).2
  | CacheOp.clearOp p => cacheClear c p

/-- State reached after a sequence of GraphQLCache calls. -/
def applyOps {α : Type} (c : List (String × CacheEntry α))
    (ops : List (CacheOp α)) : List (String × CacheEntry α) :=
  ops.foldl applyOp c

/-! ## Employee rows and their normalization (databaseOptimizer.ts)

A raw row as selected from the store: subjects is a serialized string,
startDate an optional epoch-milliseconds instant.  The remaining scalar
columns (age, department, position, salary, attendance, avatar, phone,
address, status, role and the class column) pass through the
normalization unchanged and are elided here. -/

structure RawEmployee where
  id : Nat
  name : String
  email : String
  subjects : String
  startDate : Option Nat
deriving DecidableEq

/-- A normalized employee as returned by the facade: subjects parsed to
a list, startDate converted to unix seconds. -/
structure Employee where
  id : Nat
  name : String
  email : String
  subjects : List String
  startDate : Option Nat
deriving DecidableEq

/-- OptimizedQueryBuilder.parseSubjects: JSON.parse the serialized
subjects field, returning the empty list when parsing throws.  The
JSON.parse collaborator of the runtime is passed explicitly as a
function returning none exactly when it would throw. -/
def parseSubjects (jsonParse : String → Option (List String)) (s : String) :
    List String :=
  match jsonParse s with
  | some l => l
  | none => []

/-- The per-row normalization applied by both fetch paths of the facade:
spread the row, replace subjects by parseSubjects of it and startDate by
Math.floor(getTime() / 1000) when present, null otherwise. -/
def normalizeEmployee (jsonParse : String → Option (List String))
    (e : RawEmployee) : Employee :=
  { id := e.id, name := e.name, email := e.email,
    subjects := parseSubjects jsonParse e.subjects,
    startDate := e.startDate.map (fun ms => ms / 1000) }

/-! ## OptimizedQueryBuilder.getEmployeesWithOptimization
(databaseOptimizer.ts, lines 65-145)

The facade keeps its own static Map from the JSON.stringify of the
options (passed here as the precomputed cacheKey string) to a cached
result with its timestamp; cacheTTL is 5 minutes.  The bulk fetch of
rows plus total count is the collaborator response, an Except so the
store error path is explicit. -/

structure DbEntry (α : Type) where
  data : α
  timestamp : Nat
deriving DecidableEq

/-- The cacheTTL constant of OptimizedQueryBuilder (5 minutes in ms). -/
def dbCacheTTL : Nat := 5 * 60 * 1000

structure EmployeesResult where
  employees : List Employee
  totalCount : Nat
deriving DecidableEq

/-- The cache test at the top of the facade: a hit needs a present entry
with now - timestamp strictly below cacheTTL. -/
def dbCacheHit {α : Type} (cache : List (String × DbEntry α)) (key : String)
    (now : Nat) : Option α :=
  match mapGet cache key with
  | none => none
  | some cached =>
      if now - cached.timestamp < dbCacheTTL then some cached.data else none

/-- getEmployeesWithOptimization: return the cached result on a fresh
hit; otherwise run the bulk fetch, and on success normalize every row,
cache the result under the key with the current timestamp, and return
it; a fetch error propagates and skips the cache write (the try block
aborts before this.cache.set).  The result pairs the Except outcome
with the facade cache state after the call. -/
def getEmployeesWithOptimization {ε : Type}
    (jsonParse : String → Option (List String))
    (cache : List (String × DbEntry EmployeesResult)) (cacheKey : String)
    (now : Nat) (fetch : Except ε (List RawEmployee × Nat)) :
    Except ε EmployeesResult × List (String × DbEntry EmployeesResult) :=
  match dbCacheHit cache cacheKey now with
  | some r => (Except.ok r, cache)
  | none =>
    match fetch with
    | Except.error e => (Except.error e, cache)
    | Except.ok (rows, cnt) =>
        let result : EmployeesResult :=
          { employees := rows.map (normalizeEmployee jsonParse),
            totalCount := cnt }
        (Except.ok result,
         mapSet cache cacheKey { data := result, timestamp := now })

/-! ## EmployeeDataLoader (graphqlOptimizer.ts, lines 6-90)

The id batch function receives the deduplicated ids of one tick, asks
the store for the matching rows (in no particular order), builds a Map
from row id to row, and returns, positionally for each requested id,
the matching row or null. -/

/-- The employeeMap built inside the batch function: new Map over
[emp.id, emp] pairs, later duplicates overwriting earlier ones. -/
def employeeMapOf (rows : List Employee) : List (Nat × Employee) :=
  rows.foldl (fun m e => mapSet m e.id e) []

/-- The id batch function: ids.map(id to employeeMap.get(id) || null). -/
def batchLoadByIds (rows : List Employee) (ids : List Nat) :
    List (Option Employee) :=
  ids.map (fun i => mapGet (employeeMapOf rows) i)

/-- Distinct keys of one tick in first-request order. -/
def dedupFirst : List Nat → List Nat
  | [] => []
  | k :: rest => k :: (dedupFirst rest).filter (fun x => x ≠ k)

/-- Modelled from the spec: the dispatch of the external DataLoader
library (a dependency, not part of src/): all load calls of one tick
are coalesced, the batch function is called once with the distinct
requested keys in first-request order, and every original load call
receives the batch result memoized for its own key. -/
def loaderDispatch (rows : List Employee) (reqs : List Nat) :
    List (Option Employee) :=
  let distinct := dedupFirst reqs
  let results := batchLoadByIds rows distinct
  reqs.map (fun k => (mapGet (distinct.zip results) k).getD none)

/-- EmployeeDataLoader.clear: the guard is the JS truthiness test
if (id), so the numeric id 0 and an omitted id both take the clearAll
branch, while a nonzero id clears only its own memoized entry. -/
def loaderClear {α : Type} (idOpt : Option Nat) (m : List (Nat × α)) :
    List (Nat × α) :=
  match idOpt with
  | some i => if i = 0 then [] else mapDelete m i
  | none => []

/-! ## Map lemmas -/

theorem mapGet_mapSet_self {κ α : Type} [DecidableEq κ]
    (c : List (κ × α)) (k : κ) (v : α) :
    mapGet (mapSet c k v) k = some v := by
  induction c with
  | nil => simp [mapSet, mapGet]
  | cons hd tl ih =>
      obtain ⟨k0, v0⟩ := hd
      by_cases h : k0 = k <;> simp [mapSet, mapGet, h, ih]

theorem mapGet_mapSet_of_ne {κ α : Type} [DecidableEq κ]
    (c : List (κ × α)) (k q : κ) (v : α) (h : q ≠ k) :
    mapGet (mapSet c k v) q = mapGet c q := by
  have hk : k ≠ q := Ne.symm h
  induction c with
  | nil => simp [mapSet, mapGet, hk]
  | cons hd tl ih =>
      obtain ⟨k0, v0⟩ := hd
      by_cases hq : k0 = k
      · subst hq
        simp [mapSet, mapGet, hk]
      · simp [mapSet, mapGet, hq, ih]

theorem mem_keys_mapSet {κ α : Type} [DecidableEq κ]
    (c : List (κ × α)) (k x : κ) (v : α)
    (hx : x ∈ (mapSet c k v).map Prod.fst) :
    x = k ∨ x ∈ c.map Prod.fst := by
  induction c with
  | nil => simpa [mapSet] using hx
  | cons hd tl ih =>
      obtain ⟨k0, v0⟩ := hd
      by_cases h : k0 = k
      · subst h
        simpa [mapSet] using hx
      · simp only [mapSet, if_neg h, List.map_cons, List.mem_cons] at hx
        rcases hx with h1 | h2
        · exact Or.inr (by simp [h1])
        · rcases ih h2 with h3 | h4
          · exact Or.inl h3
          · exact Or.inr (by simp [h4])

theorem keys_nodup_mapSet {κ α : Type} [DecidableEq κ]
    (c : List (κ × α)) (k : κ) (v : α)
    (h : (c.map Prod.fst).Nodup) :
    ((mapSet c k v).map Prod.fst).Nodup := by
  induction c with
  | nil => simp [mapSet]
  | cons hd tl ih =>
      obtain ⟨k0, v0⟩ := hd
      simp only [List.map_cons, List.nodup_cons] at h
      by_cases hk : k0 = k
      · subst hk
        simpa [mapSet, List.nodup_cons] using h
      · simp only [mapSet, if_neg hk, List.map_cons]
        refine List.nodup_cons.mpr ⟨?_, ih h.2⟩
        intro hmem
        rcases mem_keys_mapSet tl k k0 v hmem with h1 | h2
        · exact hk h1
        · exact h.1 h2

theorem mapGet_eq_none_of_not_mem {κ α : Type} [DecidableEq κ]
    (c : List (κ × α)) (k : κ) (h : k ∉ c.map Prod.fst) :
    mapGet c k = none := by
  induction c with
  | nil => simp [mapGet]
  | cons hd tl ih =>
      obtain ⟨k0, v0⟩ := hd
      simp only [List.map_cons, List.mem_cons] at h
      push_neg at h
      have h1 : k0 ≠ k := Ne.symm h.1
      simp [mapGet, h1, ih h.2]

theorem mapGet_mapDelete_self {κ α : Type} [DecidableEq κ]
    (c : List (κ × α)) (k : κ) (h : (c.map Prod.fst).Nodup) :
    mapGet (mapDelete c k) k = none := by
  induction c with
  | nil => simp [mapDelete, mapGet]
  | cons hd tl ih =>
      obtain ⟨k0, v0⟩ := hd
      simp only [List.map_cons, List.nodup_cons] at h
      by_cases hk : k0 = k
      · subst hk
        simpa [mapDelete] using mapGet_eq_none_of_not_mem tl k0 h.1
      · simp [mapDelete, mapGet, hk, ih h.2]

/-! ## Query cost estimator lemmas -/

theorem one_le_fieldWeight (rules : List (String × List (String × Nat)))
    (pt fn : String) : 1 ≤ fieldWeight rules pt fn := by
  unfold fieldWeight
  split
  · omega
  · split
    · omega
    · split <;> omega

theorem countFields_le_traverse (rules : List (String × List (String × Nat))) :
    ∀ (sels : List Selection) (pt : String),
      countFields sels ≤ traverse rules sels pt
  | [], _ => by rw [countFields, traverse]
  | Selection.fld n children :: rest, pt => by
      have h1 := countFields_le_traverse rules children n
      have h2 := countFields_le_traverse rules rest pt
      have h3 := one_le_fieldWeight rules pt n
      rw [countFields, traverse]
      omega
  | Selection.frag children :: rest, pt => by
      have h1 := countFields_le_traverse rules children pt
      have h2 := countFields_le_traverse rules rest pt
      rw [countFields, traverse]
      omega

/-! ## Concrete fixtures for the cost estimator claims -/

/-- Weight table of claim C1: parent weights a=3, b=1 at the root type
and c=2 under the parent context of field b (the traversal descends
with the field name as the new parent type). -/
def c1Rules : List (String × List (String × Nat)) :=
  [("Query", [("a", 3), ("b", 1)]), ("b", [("c", 2)])]

/-- Selection tree of claim C1: fields a and b, b with child c. -/
def c1Sel : List Selection :=
  [Selection.fld "a" [], Selection.fld "b" [Selection.fld "c" []]]

/-- Weight table making the single selected field cost 1001. -/
def c3RulesHigh : List (String × List (String × Nat)) :=
  [("Query", [("big", 1001)])]

/-- Weight table making the single selected field cost exactly 1000. -/
def c3RulesFull : List (String × List (String × Nat)) :=
  [("Query", [("big", 1000)])]

/-- Selection tree of claim C3: one field named big. -/
def c3Sel : List Selection := [Selection.fld "big" []]

/-- C1: for a fixed selection tree and weight table,
calculateComplexity is a pure function and so returns the same integer
on every call, and on the selection tree with fields a and b, b having
child c, under weights a=3, b=1 (parent Query) and c=2 (parent context
b), the computed total cost is 6 = 3 + 1 + 2 and the call returns it. -/
theorem calculateComplexity_deterministic_and_example :
    (∀ (rules : List (String × List (String × Nat)))
       (sels : List Selection) (pt : String),
        calculateComplexity rules sels pt = calculateComplexity rules sels pt) ∧
    calculateComplexity c1Rules c1Sel "Query" = Except.ok 6 := by
  refine ⟨fun _ _ _ => rfl, ?_⟩
  have h : traverse c1Rules c1Sel "Query" = 6 := by
    simp [traverse, c1Rules, c1Sel, fieldWeight, mapGet]
  simp [calculateComplexity, h, maxComplexity]

/-- C3: calculateComplexity rejects exactly when the computed cost
strictly exceeds the ceiling maxComplexity = 1000, the error carries
the pair of computed cost and ceiling, a selection tree of cost 1001 is
rejected with (1001, 1000), and a selection tree of cost exactly 1000
is accepted with its cost returned. -/
theorem calculateComplexity_ceiling :
    (∀ (rules : List (String × List (String × Nat)))
       (sels : List Selection) (pt : String),
        calculateComplexity rules sels pt =
          if traverse rules sels pt > maxComplexity
          then Except.error (traverse rules sels pt, maxComplexity)
          else Except.ok (traverse rules sels pt)) ∧
    maxComplexity = 1000 ∧
    calculateComplexity c3RulesHigh c3Sel "Query" = Except.error (1001, 1000) ∧
    calculateComplexity c3RulesFull c3Sel "Query" = Except.ok 1000 := by
  refine ⟨fun _ _ _ => rfl, rfl, ?_, ?_⟩
  · have h : traverse c3RulesHigh c3Sel "Query" = 1001 := by
      simp [traverse, c3RulesHigh, c3Sel, fieldWeight, mapGet]
    simp [calculateComplexity, h, maxComplexity]
  · have h : traverse c3RulesFull c3Sel "Query" = 1000 := by
      simp [traverse, c3RulesFull, c3Sel, fieldWeight, mapGet]
    simp [calculateComplexity, h, maxComplexity]

/-- C8: the computed cost of any selection tree under any weight table
is at least the number of selected Field nodes, because the lookup
rules?.[fieldName] || 1 turns a configured weight of 0 into 1; in
particular the Employee field id, configured with weight 0 in the
complexityRules table of the source, still contributes 1. -/
theorem cost_at_least_field_count :
    (∀ (rules : List (String × List (String × Nat)))
       (sels : List Selection) (pt : String),
        countFields sels ≤ traverse rules sels pt) ∧
    traverse complexityRules [Selection.fld "id" []] "Employee" = 1 := by
  refine ⟨fun rules sels pt => countFields_le_traverse rules sels pt, ?_⟩
  simp [traverse, fieldWeight, mapGet, complexityRules]

/-- C2: after set(key, value, ttl) at time t0 on a cache with distinct
keys, get(key) at any t with t0 <= t <= t0+ttl returns the stored
value, while at any t > t0+ttl it returns a miss and the entry has been
removed from the store by lazy eviction, so an expired value is never
returned. -/
theorem cache_ttl_correctness {α : Type} (c : List (String × CacheEntry α))
    (hkeys : (c.map Prod.fst).Nodup) (key : String) (v : α) (ttl t0 t : Nat)
    (httl : 0 < ttl) :
    (t0 ≤ t → t ≤ t0 + ttl →
      (cacheGet (cacheSet c key v ttl t0) key t).1 = some v) ∧
    (t0 + ttl < t →
      (cacheGet (cacheSet c key v ttl t0) key t).1 = none ∧
      mapGet (cacheGet (cacheSet c key v ttl t0) key t).2 key = none) := by
  have hget : mapGet (cacheSet c key v ttl t0) key =
      some { data := v, timestamp := t0, ttl := ttl } :=
    mapGet_mapSet_self c key _
  constructor
  · intro h1 h2
    have hcond : ¬ (t - t0 > ttl) := by omega
    simp [cacheGet, hget, hcond]
  · intro h1
    have hcond : t - t0 > ttl := by omega
    have hnodup := keys_nodup_mapSet c key
      { data := v, timestamp := t0, ttl := ttl } hkeys
    have hdel := mapGet_mapDelete_self (cacheSet c key v ttl t0) key hnodup
    simp [cacheGet, hget, hcond, hdel]

/-- Witness for C2: on the empty cache, a value stored at time 10 with
ttl 5 is returned at time 15 and is a miss at time 16. -/
theorem cache_ttl_correctness_witness :
    (cacheGet (cacheSet ([] : List (String × CacheEntry Nat)) "k" 7 5 10)
      "k" 15).1 = some 7 ∧
    (cacheGet (cacheSet ([] : List (String × CacheEntry Nat)) "k" 7 5 10)
      "k" 16).1 = none := by
  constructor
  · exact (cache_ttl_correctness [] (by simp) "k" 7 5 10 15 (by omega)).1
      (by omega) (by omega)
  · exact ((cache_ttl_correctness [] (by simp) "k" 7 5 10 16 (by omega)).2
      (by omega)).1

/-- C9: EmployeeDataLoader.clear with id 0 (and with no id) clears the
entire memoized map, because the guard if (id) treats the numeric key 0
as falsy, while any nonzero id removes only its own entry. -/
theorem loaderClear_zero_clears_all {α : Type} (m : List (Nat × α)) (i : Nat)
    (hi : i ≠ 0) :
    loaderClear (some 0) m = [] ∧ loaderClear none m = [] ∧
    loaderClear (some i) m = mapDelete m i := by
  refine ⟨rfl, rfl, ?_⟩
  simp [loaderClear, hi]

/-- Witness for C9: on a two-entry memo map, clear(0) empties the map
while clear(2) removes only the entry for key 2. -/
theorem loaderClear_zero_clears_all_witness :
    loaderClear (some 0) [(0, 1), (2, 3)] = ([] : List (Nat × Nat)) ∧
    loaderClear (some 2) [(0, 1), (2, 3)] = [(0, 1)] := by
  refine ⟨(loaderClear_zero_clears_all [(0, 1), (2, 3)] 2 (by decide)).1, ?_⟩
  have h := (loaderClear_zero_clears_all [(0, 1), (2, 3)] 2 (by decide)).2.2
  rw [h]
  decide

/-- C10: after any history of GraphQLCache calls, getStats reports
hitRate 0 (the source hard-codes it) and size equal to the number of
entries physically in the map; in particular after a set whose entry
has expired without being looked up, the stale entry still counts
toward size even though a get would miss. -/
theorem getStats_hitRate_always_zero :
    (∀ (ops : List (CacheOp Nat)),
        (getStats (applyOps [] ops)).hitRate = 0 ∧
        (getStats (applyOps [] ops)).size = (applyOps [] ops).length) ∧
    getStats (applyOps ([] : List (String × CacheEntry Nat))
      [CacheOp.setOp "k" 7 5 0]) = { size := 1, hitRate := 0 } ∧
    (cacheGet (applyOps ([] : List (String × CacheEntry Nat))
      [CacheOp.setOp "k" 7 5 0]) "k" 100).1 = none := by
  exact ⟨fun ops => ⟨rfl, rfl⟩, by decide, by decide⟩

/-! ## Filter lemmas for cacheClear -/

theorem mapGet_filter_of_false {κ α : Type} [DecidableEq κ]
    (c : List (κ × α)) (q : κ → Bool) (k : κ) (hk : q k = false) :
    mapGet (c.filter fun kv => q kv.1) k = none := by
  induction c with
  | nil => simp [mapGet]
  | cons hd tl ih =>
      obtain ⟨k0, v0⟩ := hd
      by_cases h0 : q k0 = true
      · have hne : k0 ≠ k := by
          intro he
          rw [he, hk] at h0
          exact Bool.false_ne_true h0
        simp [List.filter_cons, h0, mapGet, hne, ih]
      · simp [List.filter_cons, h0, ih]

theorem mapGet_filter_of_true {κ α : Type} [DecidableEq κ]
    (c : List (κ × α)) (q : κ → Bool) (k : κ) (hk : q k = true) :
    mapGet (c.filter fun kv => q kv.1) k = mapGet c k := by
  induction c with
  | nil => simp
  | cons hd tl ih =>
      obtain ⟨k0, v0⟩ := hd
      by_cases he : k0 = k
      · subst he
        simp [List.filter_cons, hk, mapGet]
      · by_cases h0 : q k0 = true <;>
          simp [List.filter_cons, h0, mapGet, he, ih]

/-- C7: clear(pattern) removes exactly the entries whose key contains
the pattern as a substring: an entry survives iff it was present and
its key does not contain the pattern, a get for any key containing the
pattern then misses, a key not containing the pattern resolves exactly
as before, and clear() with no pattern removes every entry. -/
theorem cacheClear_pattern_exact {α : Type} (c : List (String × CacheEntry α))
    (p k : String) (t : Nat) :
    (∀ e : CacheEntry α,
        (k, e) ∈ cacheClear c (some p) ↔
          ((k, e) ∈ c ∧ strIncludes k p = false)) ∧
    (strIncludes k p = true →
      mapGet (cacheClear c (some p)) k = none ∧
      (cacheGet (cacheClear c (some p)) k t).1 = none) ∧
    (strIncludes k p = false →
      mapGet (cacheClear c (some p)) k = mapGet c k) ∧
    cacheClear c none = [] := by
  refine ⟨?_, ?_, ?_, rfl⟩
  · intro e
    simp [cacheClear, List.mem_filter]
  · intro hk
    have hq : (!strIncludes k p) = false := by rw [hk]; rfl
    have hnone := mapGet_filter_of_false c
      (fun s => !strIncludes s p) k hq
    refine ⟨hnone, ?_⟩
    show (cacheGet (cacheClear c (some p)) k t).1 = none
    unfold cacheGet cacheClear
    rw [hnone]
  · intro hk
    have hq : (!strIncludes k p) = true := by rw [hk]; rfl
    exact mapGet_filter_of_true c
      (fun s => !strIncludes s p) k hq

/-- Witness for C7: clearing pattern 5 on a cache holding keys ab5 and
xy removes ab5 (a later get misses) and leaves xy resolving as
before. -/
theorem cacheClear_pattern_exact_witness :
    (cacheGet (cacheClear
        [("ab5", ({ data := 1, timestamp := 0, ttl := 9 } : CacheEntry Nat)),
         ("xy", { data := 2, timestamp := 0, ttl := 9 })] (some "5")) "ab5" 1).1
      = none ∧
    mapGet (cacheClear
        [("ab5", ({ data := 1, timestamp := 0, ttl := 9 } : CacheEntry Nat)),
         ("xy", { data := 2, timestamp := 0, ttl := 9 })] (some "5")) "xy"
      = some { data := 2, timestamp := 0, ttl := 9 } := by
  constructor
  · exact ((cacheClear_pattern_exact
      [("ab5", { data := 1, timestamp := 0, ttl := 9 }),
       ("xy", { data := 2, timestamp := 0, ttl := 9 })] "5" "ab5" 1).2.1
        (by decide)).2
  · have h := (cacheClear_pattern_exact
      [("ab5", ({ data := 1, timestamp := 0, ttl := 9 } : CacheEntry Nat)),
       ("xy", { data := 2, timestamp := 0, ttl := 9 })] "5" "xy" 1).2.2.1
        (by decide)
    rw [h]
    decide

/-- C4: when the facade is on its fetch path (no fresh cache hit for
the key) and the bulk-fetch collaborator raises, the error propagates
to the caller unmodified and the facade cache is left exactly as it
was, so no entry is written and any previously cached value under the
key survives untouched. -/
theorem fetch_error_propagates_cache_untouched {ε : Type}
    (jsonParse : String → Option (List String))
    (cache : List (String × DbEntry EmployeesResult)) (cacheKey : String)
    (now : Nat) (e : ε) (hmiss : dbCacheHit cache cacheKey now = none) :
    getEmployeesWithOptimization jsonParse cache cacheKey now
      (Except.error e) = (Except.error e, cache) := by
  unfold getEmployeesWithOptimization
  rw [hmiss]

/-- Witness for C4: on a cache holding a stale entry for the key, a
failing fetch returns the error and leaves the stale entry in place. -/
theorem fetch_error_propagates_cache_untouched_witness :
    getEmployeesWithOptimization (fun _ => none)
      [("opts", ({ data := { employees := [], totalCount := 3 },
                   timestamp := 0 } : DbEntry EmployeesResult))]
      "opts" 300000 (Except.error (7 : Nat)) =
      (Except.error 7,
       [("opts", { data := { employees := [], totalCount := 3 },
                   timestamp := 0 })]) := by
  exact fetch_error_propagates_cache_untouched (fun _ => none)
    [("opts", { data := { employees := [], totalCount := 3 },
                timestamp := 0 })] "opts" 300000 7 (by decide)

/-- C6: a row whose serialized subjects field fails to parse gets the
safe default empty list from parseSubjects instead of an exception, a
row whose subjects field parses gets the parsed list, the row
normalization used on the fetch paths forwards exactly parseSubjects
for the subjects field, and a batch containing malformed rows still
normalizes as a whole instead of failing. -/
theorem parseSubjects_defaults_on_failure
    (jsonParse : String → Option (List String)) (s : String)
    (row : RawEmployee) (rows : List RawEmployee) (key : String)
    (now cnt : Nat) :
    (jsonParse s = none → parseSubjects jsonParse s = []) ∧
    (∀ l : List String,
        jsonParse s = some l → parseSubjects jsonParse s = l) ∧
    (normalizeEmployee jsonParse row).subjects =
      parseSubjects jsonParse row.subjects ∧
    (getEmployeesWithOptimization jsonParse [] key now
        (Except.ok (rows, cnt) : Except Unit (List RawEmployee × Nat))).1 =
      Except.ok { employees := rows.map (normalizeEmployee jsonParse),
                  totalCount := cnt } := by
  refine ⟨?_, ?_, rfl, rfl⟩
  · intro h
    simp [parseSubjects, h]
  · intro l h
    simp [parseSubjects, h]

/-- Witness for C6: a parse collaborator that rejects everything yields
subjects = [] for a malformed row, and one that accepts yields the
parsed list. -/
theorem parseSubjects_defaults_on_failure_witness :
    parseSubjects (fun _ => none) "not json" = [] ∧
    parseSubjects (fun _ => some ["math"]) "x" = ["math"] := by
  constructor
  · exact (parseSubjects_defaults_on_failure (fun _ => none) "not json"
      { id := 1, name := "a", email := "e", subjects := "not json",
        startDate := none } [] "k" 0 0).1 rfl
  · exact (parseSubjects_defaults_on_failure (fun _ => some ["math"]) "x"
      { id := 1, name := "a", email := "e", subjects := "x",
        startDate := none } [] "k" 0 0).2.1 ["math"] rfl

/-! ## Batched loader lemmas -/

theorem mem_dedupFirst (k : Nat) : ∀ l : List Nat, k ∈ dedupFirst l ↔ k ∈ l
  | [] => by simp [dedupFirst]
  | a :: rest => by
      by_cases h : k = a
      · subst h
        simp [dedupFirst]
      · simp [dedupFirst, h, List.mem_filter, mem_dedupFirst k rest]

theorem nodup_dedupFirst : ∀ l : List Nat, (dedupFirst l).Nodup
  | [] => by simp [dedupFirst]
  | a :: rest => by
      rw [dedupFirst]
      refine List.nodup_cons.mpr ⟨?_, List.Nodup.filter _ (nodup_dedupFirst rest)⟩
      intro hmem
      have := (List.mem_filter.mp hmem).2
      simp at this

theorem mapGet_zip_map {κ β : Type} [DecidableEq κ] (f : κ → β) :
    ∀ (l : List κ) (k : κ), k ∈ l →
      mapGet (l.zip (l.map f)) k = some (f k)
  | [], k, hk => by simp at hk
  | a :: rest, k, hk => by
      by_cases h : a = k
      · subst h
        simp [mapGet]
      · have hk2 : k ∈ rest := by
          rcases List.mem_cons.mp hk with h1 | h2
          · exact absurd h1.symm h
          · exact h2
        have ih := mapGet_zip_map f rest k hk2
        simp only [List.map_cons, List.zip_cons_cons, mapGet, if_neg h]
        exact ih

theorem mapGet_foldl_mapSet_of_absent (k : Nat) :
    ∀ (rows : List Employee) (m : List (Nat × Employee)),
      (∀ r ∈ rows, r.id ≠ k) →
      mapGet (rows.foldl (fun m e => mapSet m e.id e) m) k = mapGet m k
  | [], m, _ => rfl
  | r :: rest, m, h => by
      have h1 : r.id ≠ k := h r (by simp)
      have h2 : ∀ s ∈ rest, s.id ≠ k := fun s hs => h s (by simp [hs])
      rw [List.foldl_cons,
        mapGet_foldl_mapSet_of_absent k rest (mapSet m r.id r) h2,
        mapGet_mapSet_of_ne m r.id k r (Ne.symm h1)]

theorem mapGet_employeeMapOf_absent (rows : List Employee) (k : Nat)
    (h : ∀ r ∈ rows, r.id ≠ k) :
    mapGet (employeeMapOf rows) k = none :=
  mapGet_foldl_mapSet_of_absent k rows [] h

theorem loaderDispatch_eq_lookup (rows : List Employee) (reqs : List Nat) :
    loaderDispatch rows reqs =
      reqs.map (fun k => mapGet (employeeMapOf rows) k) := by
  unfold loaderDispatch batchLoadByIds
  refine List.map_congr_left ?_
  intro k hk
  have hmem : k ∈ dedupFirst reqs := (mem_dedupFirst k reqs).mpr hk
  rw [mapGet_zip_map (fun i => mapGet (employeeMapOf rows) i)
    (dedupFirst reqs) k hmem]
  rfl

/-- C5: within one tick the batch function receives the distinct
requested keys (duplicates collapsed, first-request order, no
duplicates left), every original load call receives exactly the row
matching its own key and in the order requested; for the request
sequence k1, k2, k1 the three results come back in that order with the
two k1 results identical, and a key matching no row yields null. -/
theorem loader_batch_fanout (rows : List Employee) (reqs : List Nat)
    (k1 k2 kAbs : Nat) (hne : k1 ≠ k2)
    (habs : ∀ r ∈ rows, r.id ≠ kAbs) :
    ((dedupFirst reqs).Nodup ∧ (∀ k, k ∈ dedupFirst reqs ↔ k ∈ reqs)) ∧
    loaderDispatch rows reqs =
      reqs.map (fun k => mapGet (employeeMapOf rows) k) ∧
    dedupFirst [k1, k2, k1] = [k1, k2] ∧
    loaderDispatch rows [k1, k2, k1] =
      [mapGet (employeeMapOf rows) k1, mapGet (employeeMapOf rows) k2,
       mapGet (employeeMapOf rows) k1] ∧
    mapGet (employeeMapOf rows) kAbs = none := by
  refine ⟨⟨nodup_dedupFirst reqs, fun k => mem_dedupFirst k reqs⟩,
    loaderDispatch_eq_lookup rows reqs, ?_, ?_,
    mapGet_employeeMapOf_absent rows kAbs habs⟩
  · have h21 : k2 ≠ k1 := Ne.symm hne
    simp [dedupFirst, hne, h21]
  · rw [loaderDispatch_eq_lookup rows [k1, k2, k1]]
    rfl

/-- Witness for C5: two rows with ids 1 and 2, requests 1, 2, 1 within
one tick, and the absent key 9. -/
theorem loader_batch_fanout_witness :
    loaderDispatch
      [{ id := 1, name := "a", email := "ea", subjects := [],
         startDate := none },
       { id := 2, name := "b", email := "eb", subjects := [],
         startDate := none }] [1, 2, 1] =
      [some { id := 1, name := "a", email := "ea", subjects := [],
              startDate := none },
       some { id := 2, name := "b", email := "eb", subjects := [],
              startDate := none },
       some { id := 1, name := "a", email := "ea", subjects := [],
              startDate := none }] ∧
    mapGet (employeeMapOf
      [{ id := 1, name := "a", email := "ea", subjects := [],
         startDate := none },
       { id := 2, name := "b", email := "eb", subjects := [],
         startDate := none }]) 9 = none := by
  have h := loader_batch_fanout
    [{ id := 1, name := "a", email := "ea", subjects := [],
       startDate := none },
     { id := 2, name := "b", email := "eb", subjects := [],
       startDate := none }] [1, 2, 1] 1 2 9 (by decide)
    (by intro r hr; fin_cases hr <;> decide)
  refine ⟨?_, h.2.2.2.2⟩
  rw [h.2.2.2.1]
  decide

end Uship
